import Mathlib

/-
Verification of the field value engine of the ca2/third-macos tag-metadata
library.  The repository ships only the abstract interface `ID3_Field`
(src/third/include/aaa_id3/field.h); every pure-virtual operation is
implemented elsewhere, so the engine is modelled here from the
specification's words (spec.md) and settled against that model.
-/

namespace Id3

/-- Modelled from the spec: the two text encodings of §2/§4.2 — a narrow
single-byte encoding (ISO-8859-1) and a wide fixed-width encoding (UTF-16
code units).  The source enum `ID3_TextEnc` is declared in globals.h, which
is not part of this repository fragment. -/
inductive ID3_TextEnc where
  | ISO8859_1 : ID3_TextEnc
  | UTF16 : ID3_TextEnc
deriving DecidableEq, Repr

/-- Modelled from the spec: the four field kinds of §3 (Integer | AsciiText |
UnicodeText | Binary).  The source enum `ID3_FieldType` is declared in
globals.h, which is not part of this repository fragment. -/
inductive ID3_FieldType where
  | Integer : ID3_FieldType
  | AsciiText : ID3_FieldType
  | UnicodeText : ID3_FieldType
  | Binary : ID3_FieldType
deriving DecidableEq, Repr

/-- The two text kinds of the variant. -/
def ID3_FieldType.isText : ID3_FieldType → Bool
  | .AsciiText => true
  | .UnicodeText => true
  | _ => false

/-- Modelled from the spec: the error taxonomy of §7.  The source reports
these through `ID3_Err`; its definition is not part of this repository
fragment. -/
inductive FieldError where
  | WrongFieldKind : FieldError
  | IndexOutOfRange : FieldError
  | IoError : FieldError
  | MalformedInput : FieldError
deriving DecidableEq, Repr

/-- Exclusive upper bound of the character codes representable in an
encoding: one byte for the narrow encoding, one 16-bit unit for the wide
encoding. -/
def encBound : ID3_TextEnc → Nat
  | .ISO8859_1 => 256
  | .UTF16 => 65536

/-- Modelled from the spec (§4.2): the policy-defined replacement character
used when a wide character has no narrow equivalent. -/
def replacementChar : Nat := 63

/-- Modelled from the spec (§4.2 Encoding Converter): pure conversion of one
string between encodings.  Narrow→wide is total and lossless (Latin-1 code
points embed identically into the wide code space).  Wide→narrow maps each
unrepresentable character to `replacementChar` and reports in the second
component whether any replacement occurred. -/
def convertChars : ID3_TextEnc → ID3_TextEnc → List Nat → List Nat × Bool
  | .UTF16, .ISO8859_1, s =>
      (s.map (fun c => if c < 256 then c else replacementChar),
       s.any (fun c => decide (256 ≤ c)))
  | _, _, s => (s, false)

/-- Conversion lifted to a whole item list: converts every item and reports
whether any item's conversion was lossy. -/
def convertItems (a b : ID3_TextEnc) (items : List (List Nat)) :
    List (List Nat) × Bool :=
  (items.map (fun it => (convertChars a b it).1),
   items.any (fun it => (convertChars a b it).2))

/-- Modelled from the spec (§3 Data Model): the mutable state of a field
value.  The source class `ID3_Field` (field.h) is a pure-virtual interface;
its concrete state lives in field.cpp, which is not part of this repository
fragment.  Exactly one of `integer`, `items`, `binary` is semantically
active, selected by `kind`; `fid` is the Field Identity; `changed` is the
dirty flag. -/
structure ID3_Field where
  fid : Nat
  kind : ID3_FieldType
  encoding : ID3_TextEnc
  items : List (List Nat)
  integer : Nat
  binary : List Nat
  changed : Bool
deriving DecidableEq, Repr

namespace ID3_Field

/-- Modelled from the spec: `GetID()` returns the Field Identity. -/
def GetID (f : ID3_Field) : Nat := f.fid

/-- Modelled from the spec: `GetType()` returns the kind tag. -/
def GetType (f : ID3_Field) : ID3_FieldType := f.kind

/-- Modelled from the spec: `GetEncoding()` returns the current encoding. -/
def GetEncoding (f : ID3_Field) : ID3_TextEnc := f.encoding

/-- Modelled from the spec: `HasChanged()` returns the dirty flag. -/
def HasChanged (f : ID3_Field) : Bool := f.changed

/-- Modelled from the spec: `IsEncodable()` — whether the kind supports an
encoding concept at all (false for integer/binary). -/
def IsEncodable (f : ID3_Field) : Bool := f.kind.isText

/-- Modelled from the spec: `GetNumTextItems()` — count of items in the
text-item list; 0 for non-text kinds (definitional, not an error). -/
def GetNumTextItems (f : ID3_Field) : Nat :=
  if f.kind.isText then f.items.length else 0

/-- Modelled from the spec (§4.1): `Set(uint32)` on the integer kind
replaces the value; on any other kind it fails with `WrongFieldKind` and
leaves the field unmodified.  The stored value is the unsigned 32-bit
image of the argument. -/
def SetInteger (f : ID3_Field) (v : Nat) : Option FieldError × ID3_Field :=
  if f.kind = .Integer then
    (none, { f with integer := v % 2 ^ 32, changed := true })
  else (some .WrongFieldKind, f)

/-- Modelled from the spec: `Get()` on the integer kind returns the stored
value; on any other kind the operation is outside the kind's group and
fails with `WrongFieldKind` (§4.1/§7: reject, never coerce or default). -/
def GetInteger (f : ID3_Field) : Except FieldError Nat :=
  if f.kind = .Integer then .ok f.integer else .error .WrongFieldKind

/-- Core text mutation shared by the ASCII and Unicode entry points:
`Set(text)` replaces the entire item list with a single item; fails with
`WrongFieldKind` on non-text kinds, leaving the field unmodified. -/
def SetText (f : ID3_Field) (s : List Nat) : Option FieldError × ID3_Field :=
  if f.kind.isText then (none, { f with items := [s], changed := true })
  else (some .WrongFieldKind, f)

/-- Core text append shared by the ASCII and Unicode entry points:
`Add(text)` appends a new item without disturbing existing ones; fails with
`WrongFieldKind` on non-text kinds, leaving the field unmodified. -/
def AddText (f : ID3_Field) (s : List Nat) : Option FieldError × ID3_Field :=
  if f.kind.isText then
    (none, { f with items := f.items ++ [s], changed := true })
  else (some .WrongFieldKind, f)

/-- Modelled from the spec and the field.h doc comment: `Set(const char*)` —
the narrow-encoded argument is converted to the field's current internal
encoding and stored as the single item. -/
def SetAscii (f : ID3_Field) (s : List Nat) : Option FieldError × ID3_Field :=
  f.SetText (convertChars .ISO8859_1 f.encoding s).1

/-- Modelled from the spec: `Add(const char*)` — the narrow-encoded argument
is converted to the field's current encoding and appended. -/
def AddAscii (f : ID3_Field) (s : List Nat) : Option FieldError × ID3_Field :=
  f.AddText (convertChars .ISO8859_1 f.encoding s).1

/-- Modelled from the spec: `Set(const unicode_t*)` — the wide-encoded
argument is converted to the field's current encoding and stored as the
single item. -/
def SetUnicode (f : ID3_Field) (u : List Nat) : Option FieldError × ID3_Field :=
  f.SetText (convertChars .UTF16 f.encoding u).1

/-- Modelled from the spec: `Add(const unicode_t*)` — the wide-encoded
argument is converted to the field's current encoding and appended. -/
def AddUnicode (f : ID3_Field) (u : List Nat) : Option FieldError × ID3_Field :=
  f.AddText (convertChars .UTF16 f.encoding u).1

/-- Modelled from the spec: `GetRawText()` — read-only view of the first
item converted on demand to the narrow representation, together with the
lossy-conversion report.  The cross-encoding read is sanctioned between the
two text kinds only; on integer/binary kinds the operation is outside the
kind's group and fails with `WrongFieldKind`. -/
def GetRawText (f : ID3_Field) : Except FieldError (List Nat × Bool) :=
  if f.kind.isText then
    .ok (convertChars f.encoding .ISO8859_1 (f.items.headD []))
  else .error .WrongFieldKind

/-- Modelled from the spec: `GetRawUnicodeText()` — read-only view of the
first item converted on demand to the wide representation, together with
the lossy-conversion report; fails with `WrongFieldKind` on integer/binary
kinds. -/
def GetRawUnicodeText (f : ID3_Field) : Except FieldError (List Nat × Bool) :=
  if f.kind.isText then
    .ok (convertChars f.encoding .UTF16 (f.items.headD []))
  else .error .WrongFieldKind

/-- Modelled from the spec: indexed `Get(buffer, bufSize, itemIndex)` —
copies item `itemIndex` truncated to `bufSize`, failing with
`IndexOutOfRange` when the index is at or beyond `GetNumTextItems()`, and
with `WrongFieldKind` on non-text kinds. -/
def GetTextItem (f : ID3_Field) (bufSize itemIndex : Nat) :
    Except FieldError (List Nat) :=
  if f.kind.isText then
    if itemIndex < f.items.length then
      .ok ((f.items.getD itemIndex []).take bufSize)
    else .error .IndexOutOfRange
  else .error .WrongFieldKind

/-- Modelled from the spec: `Set(const uchar*, size_t)` on the binary kind
replaces the owned buffer; fails with `WrongFieldKind` on other kinds,
leaving the field unmodified. -/
def SetBinary (f : ID3_Field) (bs : List Nat) : Option FieldError × ID3_Field :=
  if f.kind = .Binary then
    (none, { f with binary := bs, changed := true })
  else (some .WrongFieldKind, f)

/-- Modelled from the spec (§4.1 Binary kind): `Get(buffer, bufSize)` copies
up to `bufSize` bytes from the start of the stored buffer and returns the
number of bytes actually written, namely `min length bufSize`; on non-binary
kinds the operation is outside the kind's group and fails with
`WrongFieldKind`. -/
def GetBinary (f : ID3_Field) (bufSize : Nat) :
    Except FieldError (List Nat × Nat) :=
  if f.kind = .Binary then
    .ok (f.binary.take bufSize, min f.binary.length bufSize)
  else .error .WrongFieldKind

/-- Modelled from the spec: `SetEncoding(enc)` changes the stored encoding,
eagerly converting all current items.  It returns `(success, lossy)`:
success is false when the field kind has no encoding capability (integer
and binary kinds), in which case the field is untouched; lossy reports
whether the conversion discarded unmappable characters. -/
def SetEncoding (f : ID3_Field) (enc : ID3_TextEnc) :
    (Bool × Bool) × ID3_Field :=
  if f.kind.isText then
    ((true, (convertItems f.encoding enc f.items).2),
     { f with encoding := enc,
              items := (convertItems f.encoding enc f.items).1,
              changed := true })
  else ((false, false), f)

end ID3_Field

/-- Big-endian 4-byte encoding of the unsigned 32-bit integer value, the
fixed integer width of §8's concrete scenario. -/
def encodeUint32 (n : Nat) : List Nat :=
  [n / 16777216 % 256, n / 65536 % 256, n / 256 % 256, n % 256]

/-- Big-endian decoding of exactly four bytes. -/
def decodeUint32 : List Nat → Nat
  | [a, b, c, d] => a * 16777216 + b * 65536 + c * 256 + d
  | _ => 0

/-- Encoding of a single wide character as two big-endian bytes. -/
def encodeWideChar (c : Nat) : List Nat := [c / 256, c % 256]

/-- Modelled from the spec (§4.1 Render): serialized form of a narrow text
item list — the items' bytes in order, each item terminated by a NUL
byte. -/
def renderNarrow (items : List (List Nat)) : List Nat :=
  items.flatMap (fun it => it ++ [0])

/-- Modelled from the spec: serialized form of a wide text item list — each
character as two bytes, each item terminated by a two-byte NUL unit. -/
def renderWide (items : List (List Nat)) : List Nat :=
  items.flatMap (fun it => it.flatMap encodeWideChar ++ [0, 0])

/-- Decoder for the narrow text layout: splits the byte stream at NUL
terminators; `none` when the final item is unterminated (truncated
input).  `acc` holds the characters of the item currently being read. -/
def splitItemsNarrow (acc : List Nat) : List Nat → Option (List (List Nat))
  | [] => if acc.isEmpty then some [] else none
  | c :: rest =>
      if c = 0 then (splitItemsNarrow [] rest).map (fun is => acc :: is)
      else splitItemsNarrow (acc ++ [c]) rest

/-- Decoder for the wide text layout: consumes two bytes per character,
splitting at two-byte NUL units; `none` on an odd trailing byte or an
unterminated final item (truncated input). -/
def splitItemsWide (acc : List Nat) : List Nat → Option (List (List Nat))
  | [] => if acc.isEmpty then some [] else none
  | [_] => none
  | b1 :: b2 :: rest =>
      if b1 * 256 + b2 = 0 then
        (splitItemsWide [] rest).map (fun is => acc :: is)
      else splitItemsWide (acc ++ [b1 * 256 + b2]) rest

/-- Decoder selected by a text encoding. -/
def splitItems (enc : ID3_TextEnc) (input : List Nat) :
    Option (List (List Nat)) :=
  match enc with
  | .ISO8859_1 => splitItemsNarrow [] input
  | .UTF16 => splitItemsWide [] input

namespace ID3_Field

/-- Modelled from the spec (§4.1): the pure byte image produced by
`Render` — the field's current state in its current encoding and
kind-specific binary layout. -/
def Render (f : ID3_Field) : List Nat :=
  match f.kind with
  | .Integer => encodeUint32 f.integer
  | .Binary => f.binary
  | _ =>
      match f.encoding with
      | .ISO8859_1 => renderNarrow f.items
      | .UTF16 => renderWide f.items

/-- Modelled from the spec (§4.1 Parse): replaces the field's state by
decoding the reader's bytes according to the field's declared kind and
expected encoding.  Returns false (never raises) on malformed or truncated
input; the kind never changes and `changed` is set true on any attempted
parse, success or failure. -/
def Parse (f : ID3_Field) (input : List Nat) : Bool × ID3_Field :=
  match f.kind with
  | .Integer =>
      if input.length = 4 then
        (true, { f with integer := decodeUint32 input, changed := true })
      else (false, { f with changed := true })
  | .Binary => (true, { f with binary := input, changed := true })
  | _ =>
      match splitItems f.encoding input with
      | some items => (true, { f with items := items, changed := true })
      | none => (false, { f with changed := true })

end ID3_Field

/-- Byte streams the decoder of the given kind and encoding rejects:
an integer payload that is not exactly four bytes, or a text payload the
item decoder refuses (odd length or unterminated final item).  Binary
payloads are never malformed. -/
def malformedInput (kind : ID3_FieldType) (enc : ID3_TextEnc)
    (input : List Nat) : Bool :=
  match kind with
  | .Integer => input.length != 4
  | .Binary => false
  | _ => (splitItems enc input).isNone

/-- A fresh field of the given declared kind and encoding, in the kind's
empty state. -/
def emptyField (kind : ID3_FieldType) (enc : ID3_TextEnc) : ID3_Field :=
  { fid := 0, kind := kind, encoding := enc, items := [], integer := 0,
    binary := [], changed := false }

/-- Internal consistency of the active component: integer value within
32 bits, text items made of non-NUL characters representable in the current
encoding, binary content made of bytes. -/
def ID3_Field.wellformedB (f : ID3_Field) : Bool :=
  match f.kind with
  | .Integer => f.integer < 2 ^ 32
  | .Binary => f.binary.all (fun b => b < 256)
  | _ => f.items.all (fun it => it.all (fun c => 0 < c && c < encBound f.encoding))

/-- Equality of the semantically active component selected by `f`'s kind. -/
def contentEq (g f : ID3_Field) : Prop :=
  match f.kind with
  | .Integer => g.integer = f.integer
  | .Binary => g.binary = f.binary
  | _ => g.items = f.items

/-- Modelled from the spec (§6 Writer): a sequential byte sink with bounded
capacity; a write past capacity fails (a partial write is treated as
failure). -/
structure ID3_Writer where
  capacity : Nat
  written : List Nat
deriving DecidableEq, Repr

/-- A bounded write: appends the bytes when they fit, otherwise fails with
`IoError` leaving the sink unchanged. -/
def ID3_Writer.writeBytes (w : ID3_Writer) (bs : List Nat) :
    Except FieldError ID3_Writer :=
  if w.written.length + bs.length ≤ w.capacity then
    .ok { w with written := w.written ++ bs }
  else .error .IoError

/-- Modelled from the spec: `Render(writer)` serializes the field's byte
image to the writer collaborator, never mutating the field and propagating
writer failures verbatim.  The field component of the result is the field
after the call. -/
def ID3_Field.RenderTo (f : ID3_Field) (w : ID3_Writer) :
    Except FieldError ID3_Writer × ID3_Field :=
  (w.writeBytes f.Render, f)

/-- Modelled from the spec (§4.3 Scope/Version Policy): a declared version
range, closed (`some hi`) or open-ended (`none`). -/
structure ScopeRange where
  lo : Nat
  hi : Option Nat
deriving DecidableEq, Repr

/-- Modelled from the spec: policy evaluation over the static scope table —
exact version-range matching, fail-closed for a Field Identity the table
does not know. -/
def inScopePolicy (policy : List (Nat × ScopeRange)) (fid : Nat)
    (v : Nat) : Bool :=
  match policy.lookup fid with
  | none => false
  | some r =>
      decide (r.lo ≤ v) &&
        (match r.hi with
         | none => true
         | some h => decide (v ≤ h))

/-- Modelled from the spec: `InScope(spec)` asks the Scope Policy whether
this field's identity applies under the given tag-spec version. -/
def ID3_Field.InScope (f : ID3_Field) (policy : List (Nat × ScopeRange))
    (v : Nat) : Bool :=
  inScopePolicy policy f.GetID v

/-- A map that fixes a list fixes each of its elements. -/
theorem list_map_eq_self {α : Type} (g : α → α) (l : List α)
    (h : l.map g = l) : ∀ x ∈ l, g x = x := by
  induction l with
  | nil => intro x hx; cases hx
  | cons a l ih =>
      rw [List.map_cons, List.cons.injEq] at h
      intro x hx
      rcases List.mem_cons.mp hx with hx | hx
      · rw [hx]; exact h.1
      · exact ih h.2 x hx

/-- Big-endian 4-byte round trip for 32-bit values. -/
theorem decodeUint32_encodeUint32 (n : Nat) (h : n < 2 ^ 32) :
    decodeUint32 (encodeUint32 n) = n := by
  simp only [encodeUint32, decodeUint32]
  omega

/-- The narrow decoder consumes one NUL-terminated item at the head of the
stream, provided the item itself contains no NUL. -/
theorem splitItemsNarrow_append (item : List Nat) (h : ∀ c ∈ item, c ≠ 0) :
    ∀ acc rest : List Nat,
      splitItemsNarrow acc (item ++ 0 :: rest) =
        (splitItemsNarrow [] rest).map (fun is => (acc ++ item) :: is) := by
  induction item with
  | nil => intro acc rest; simp [splitItemsNarrow]
  | cons c item ih =>
      intro acc rest
      have hc : c ≠ 0 := h c (by simp)
      have ht : ∀ x ∈ item, x ≠ 0 := fun x hx => h x (by simp [hx])
      rw [List.cons_append]
      simp only [splitItemsNarrow, hc, if_false]
      rw [ih ht (acc ++ [c]) rest]
      simp

/-- Rendering then decoding a narrow item list is the identity when no item
contains a NUL character. -/
theorem splitItemsNarrow_render (items : List (List Nat))
    (h : ∀ it ∈ items, ∀ c ∈ it, c ≠ 0) :
    splitItemsNarrow [] (renderNarrow items) = some items := by
  induction items with
  | nil => simp [renderNarrow, splitItemsNarrow]
  | cons it items ih =>
      have h1 : ∀ c ∈ it, c ≠ 0 := h it (by simp)
      have h2 : ∀ x ∈ items, ∀ c ∈ x, c ≠ 0 := fun x hx => h x (by simp [hx])
      have hr : renderNarrow (it :: items) = it ++ 0 :: renderNarrow items := by
        simp [renderNarrow]
      rw [hr, splitItemsNarrow_append it h1 [] (renderNarrow items), ih h2]
      simp

/-- The wide decoder consumes one NUL-terminated item at the head of the
stream, provided the item's characters are nonzero 16-bit values. -/
theorem splitItemsWide_append (item : List Nat)
    (h : ∀ c ∈ item, c ≠ 0 ∧ c < 65536) :
    ∀ acc rest : List Nat,
      splitItemsWide acc (item.flatMap encodeWideChar ++ 0 :: 0 :: rest) =
        (splitItemsWide [] rest).map (fun is => (acc ++ item) :: is) := by
  induction item with
  | nil => intro acc rest; simp [splitItemsWide]
  | cons c item ih =>
      intro acc rest
      obtain ⟨hc0, hcb⟩ := h c (by simp)
      have ht : ∀ x ∈ item, x ≠ 0 ∧ x < 65536 := fun x hx => h x (by simp [hx])
      have hdm : c / 256 * 256 + c % 256 = c := by omega
      have hflat : (c :: item).flatMap encodeWideChar ++ 0 :: 0 :: rest =
          c / 256 :: c % 256 ::
            (item.flatMap encodeWideChar ++ 0 :: 0 :: rest) := by
        simp [encodeWideChar]
      rw [hflat]
      rw [splitItemsWide]
      rw [hdm, if_neg hc0]
      rw [ih ht (acc ++ [c]) rest]
      simp

/-- Rendering then decoding a wide item list is the identity when every
character is a nonzero 16-bit value. -/
theorem splitItemsWide_render (items : List (List Nat))
    (h : ∀ it ∈ items, ∀ c ∈ it, c ≠ 0 ∧ c < 65536) :
    splitItemsWide [] (renderWide items) = some items := by
  induction items with
  | nil => simp [renderWide, splitItemsWide]
  | cons it items ih =>
      have h1 : ∀ c ∈ it, c ≠ 0 ∧ c < 65536 := h it (by simp)
      have h2 : ∀ x ∈ items, ∀ c ∈ x, c ≠ 0 ∧ c < 65536 :=
        fun x hx => h x (by simp [hx])
      have hr : renderWide (it :: items) =
          it.flatMap encodeWideChar ++ 0 :: 0 :: renderWide items := by
        simp [renderWide]
      rw [hr, splitItemsWide_append it h1 [] (renderWide items), ih h2]
      simp

/-- Mapping a wide string whose characters all fit in a byte down to the
narrow encoding changes nothing. -/
theorem wideToNarrow_map_id (s : List Nat) (h : ∀ c ∈ s, c < 256) :
    s.map (fun c => if c < 256 then c else replacementChar) = s := by
  induction s with
  | nil => rfl
  | cons c s ih =>
      simp [h c (by simp), ih fun a ha => h a (by simp [ha])]

/-- A wide string whose characters all fit in a byte triggers no lossy
report. -/
theorem wideToNarrow_any_false (s : List Nat) (h : ∀ c ∈ s, c < 256) :
    s.any (fun c => decide (256 ≤ c)) = false := by
  induction s with
  | nil => rfl
  | cons c s ih =>
      have hc := h c (by simp)
      simp [ih fun a ha => h a (by simp [ha])]
      omega

/-- Wide→narrow conversion of a byte-representable string is the identity
and reports no loss. -/
theorem convert_wide_narrow_id (s : List Nat) (h : ∀ c ∈ s, c < 256) :
    convertChars .UTF16 .ISO8859_1 s = (s, false) := by
  simp only [convertChars]
  rw [wideToNarrow_map_id s h, wideToNarrow_any_false s h]

/-- Modelled from the spec (§4.2): the total, lossless narrow→wide widening
of a narrow string — the Latin-1 code points viewed as wide code points. -/
def narrowToWide (s : List Nat) : List Nat :=
  (convertChars .ISO8859_1 .UTF16 s).1

/-- Sample ASCII-kind field used to exercise the theorems. -/
def sampleAscii : ID3_Field :=
  { fid := 1, kind := .AsciiText, encoding := .ISO8859_1,
    items := [[72, 105]], integer := 0, binary := [], changed := false }

/-- Sample Unicode-kind field holding a character outside the narrow
character set. -/
def sampleUni : ID3_Field :=
  { fid := 2, kind := .UnicodeText, encoding := .UTF16,
    items := [[99, 300]], integer := 0, binary := [], changed := false }

/-- Sample integer-kind field. -/
def sampleInt : ID3_Field :=
  { fid := 3, kind := .Integer, encoding := .ISO8859_1,
    items := [], integer := 7, binary := [], changed := false }

/-- Sample binary-kind field. -/
def sampleBin : ID3_Field :=
  { fid := 4, kind := .Binary, encoding := .ISO8859_1,
    items := [], integer := 0, binary := [5, 6], changed := false }

/-- C1: for every text-kind field and every string representable in the
field's current encoding, Set followed by Get returns exactly that string —
through the narrow entry points (`Set(const char*)` / `GetRawText`) for a
narrow argument, and through the wide entry points (`Set(const unicode_t*)`
/ `GetRawUnicodeText`) for any representable argument. -/
theorem text_set_get_roundtrip (f : ID3_Field) (x : List Nat)
    (hk : f.kind.isText = true) (hx : ∀ c ∈ x, c < encBound f.encoding) :
    ((∀ c ∈ x, c < 256) →
      (f.SetAscii x).2.GetRawText = .ok (x, false)) ∧
    ((f.SetUnicode x).2.GetRawUnicodeText = .ok (x, false)) := by
  cases he : f.encoding with
  | ISO8859_1 =>
      rw [he] at hx
      constructor
      · intro hn
        simp [ID3_Field.SetAscii, ID3_Field.SetText, ID3_Field.GetRawText,
              convertChars, hk, he]
      · simp [ID3_Field.SetUnicode, ID3_Field.SetText,
              ID3_Field.GetRawUnicodeText, convertChars, hk, he,
              wideToNarrow_map_id x hx]
  | UTF16 =>
      constructor
      · intro hn
        simp [ID3_Field.SetAscii, ID3_Field.SetText, ID3_Field.GetRawText,
              convertChars, hk, he, wideToNarrow_map_id x hn,
              wideToNarrow_any_false x hn]
      · simp [ID3_Field.SetUnicode, ID3_Field.SetText,
              ID3_Field.GetRawUnicodeText, convertChars, hk, he]

/-- Witness for C1 at a concrete narrow text field and the string "Hi". -/
theorem text_set_get_roundtrip_witness :
    (sampleAscii.SetAscii [72, 105]).2.GetRawText = .ok ([72, 105], false) ∧
    (sampleAscii.SetUnicode [72, 105]).2.GetRawUnicodeText =
      .ok ([72, 105], false) := by
  have h := text_set_get_roundtrip sampleAscii [72, 105] (by decide) (by decide)
  exact ⟨h.1 (by decide), h.2⟩

/-- C4: every operation invoked outside the group of the field's kind —
the Set/Add mutators and the Get reads alike — fails with `WrongFieldKind`;
the mutators return the field with its entire state unchanged and the reads
yield no value — no silent coercion or defaulting. -/
theorem wrong_kind_rejected (f : ID3_Field) (v bufSize itemIndex : Nat)
    (s u bs : List Nat) :
    (f.kind ≠ .Integer →
      f.SetInteger v = (some .WrongFieldKind, f) ∧
      f.GetInteger = .error .WrongFieldKind) ∧
    (f.kind.isText = false →
      f.SetAscii s = (some .WrongFieldKind, f) ∧
      f.AddAscii s = (some .WrongFieldKind, f) ∧
      f.SetUnicode u = (some .WrongFieldKind, f) ∧
      f.AddUnicode u = (some .WrongFieldKind, f) ∧
      f.GetRawText = .error .WrongFieldKind ∧
      f.GetRawUnicodeText = .error .WrongFieldKind ∧
      f.GetTextItem bufSize itemIndex = .error .WrongFieldKind) ∧
    (f.kind ≠ .Binary →
      f.SetBinary bs = (some .WrongFieldKind, f) ∧
      f.GetBinary bufSize = .error .WrongFieldKind) := by
  refine ⟨fun h => ?_, fun h => ?_, fun h => ?_⟩ <;>
    simp [ID3_Field.SetInteger, ID3_Field.GetInteger, ID3_Field.SetAscii,
          ID3_Field.AddAscii, ID3_Field.SetUnicode, ID3_Field.AddUnicode,
          ID3_Field.SetText, ID3_Field.AddText, ID3_Field.GetRawText,
          ID3_Field.GetRawUnicodeText, ID3_Field.GetTextItem,
          ID3_Field.SetBinary, ID3_Field.GetBinary, h]

/-- Witness for C4 at a concrete binary-kind field: integer and text
operations, reads included, are rejected and the mutators return the field
untouched. -/
theorem wrong_kind_rejected_witness :
    sampleBin.SetInteger 9 = (some .WrongFieldKind, sampleBin) ∧
    sampleBin.GetInteger = .error .WrongFieldKind ∧
    sampleBin.SetAscii [65] = (some .WrongFieldKind, sampleBin) ∧
    sampleBin.AddUnicode [300] = (some .WrongFieldKind, sampleBin) ∧
    sampleBin.GetRawText = .error .WrongFieldKind ∧
    sampleBin.GetRawUnicodeText = .error .WrongFieldKind := by
  have h := wrong_kind_rejected sampleBin 9 4 0 [65] [300] []
  exact ⟨(h.1 (by decide)).1, (h.1 (by decide)).2, (h.2.1 (by decide)).1,
         (h.2.1 (by decide)).2.2.2.1, (h.2.1 (by decide)).2.2.2.2.1,
         (h.2.1 (by decide)).2.2.2.2.2.1⟩

/-- C8: on a text field the indexed Get fails with `IndexOutOfRange`
exactly when the index is at or beyond `GetNumTextItems()`, and every
in-bounds index succeeds, copying that item truncated to the buffer
size. -/
theorem indexed_get_bounds (f : ID3_Field) (bufSize itemIndex : Nat)
    (hk : f.kind.isText = true) :
    (f.GetTextItem bufSize itemIndex = .error .IndexOutOfRange ↔
      f.GetNumTextItems ≤ itemIndex) ∧
    (itemIndex < f.GetNumTextItems →
      f.GetTextItem bufSize itemIndex =
        .ok ((f.items.getD itemIndex []).take bufSize)) := by
  by_cases hlt : itemIndex < f.items.length
  · simp [ID3_Field.GetTextItem, ID3_Field.GetNumTextItems, hk, hlt]
  · simp [ID3_Field.GetTextItem, ID3_Field.GetNumTextItems, hk, hlt]
    omega

/-- Witness for C8 at a concrete field with one item: index 0 is served,
index 1 is out of range. -/
theorem indexed_get_bounds_witness :
    sampleAscii.GetTextItem 10 0 = .ok [72, 105] ∧
    (sampleAscii.GetTextItem 10 1 = .error .IndexOutOfRange ↔
      sampleAscii.GetNumTextItems ≤ 1) := by
  have h0 := indexed_get_bounds sampleAscii 10 0 (by decide)
  have h1 := indexed_get_bounds sampleAscii 10 1 (by decide)
  exact ⟨h0.2 (by decide), h1.1⟩

/-- C9: on a binary field holding n bytes, Get with a buffer of capacity
bufSize copies exactly the first min(n, bufSize) stored bytes and returns
that count; in particular after Set([0x00,0x01,0x02], 3), Get(buf, 2)
copies [0x00,0x01] and returns 2. -/
theorem binary_get_copies_min (f : ID3_Field) (bufSize : Nat)
    (hk : f.kind = .Binary) :
    f.GetBinary bufSize =
      .ok (f.binary.take bufSize, min f.binary.length bufSize) ∧
    (f.SetBinary [0, 1, 2]).2.GetBinary 2 = .ok ([0, 1], 2) := by
  constructor
  · simp [ID3_Field.GetBinary, hk]
  · simp [ID3_Field.SetBinary, ID3_Field.GetBinary, hk]

/-- Witness for C9 at a concrete binary field. -/
theorem binary_get_copies_min_witness :
    sampleBin.GetBinary 1 =
      .ok (sampleBin.binary.take 1, min sampleBin.binary.length 1) ∧
    (sampleBin.SetBinary [0, 1, 2]).2.GetBinary 2 = .ok ([0, 1], 2) :=
  binary_get_copies_min sampleBin 1 (by decide)

/-- C3: on any input, Parse never changes the field's kind and always sets
the changed flag, and on malformed or truncated input it returns false
(being a total function, it cannot raise), leaving the state internally
consistent. -/
theorem parse_failure_safe (f : ID3_Field) (input : List Nat) :
    (f.Parse input).2.kind = f.kind ∧
    (f.Parse input).2.changed = true ∧
    (malformedInput f.kind f.encoding input = true →
      (f.Parse input).1 = false) := by
  cases hk : f.kind with
  | Integer =>
      by_cases hl : input.length = 4 <;>
        simp [ID3_Field.Parse, malformedInput, hk, hl]
  | Binary => simp [ID3_Field.Parse, malformedInput, hk]
  | AsciiText =>
      cases hs : splitItems f.encoding input <;>
        simp [ID3_Field.Parse, malformedInput, hk, hs]
  | UnicodeText =>
      cases hs : splitItems f.encoding input <;>
        simp [ID3_Field.Parse, malformedInput, hk, hs]

/-- Witness for C3: parsing a three-byte stream into an integer field
(truncated mid-field) fails, keeps the kind, and marks the field
changed. -/
theorem parse_failure_safe_witness :
    (sampleInt.Parse [1, 2, 3]).2.kind = sampleInt.kind ∧
    (sampleInt.Parse [1, 2, 3]).2.changed = true ∧
    (sampleInt.Parse [1, 2, 3]).1 = false := by
  have h := parse_failure_safe sampleInt [1, 2, 3]
  exact ⟨h.1, h.2.1, h.2.2 (by decide)⟩

/-- C6: Render leaves the field's entire state unchanged, and the writer
collaborator's outcome — failure or success — is handed back to the caller
exactly as the writer produced it. -/
theorem render_side_effect_free (f : ID3_Field) (w : ID3_Writer) :
    (f.RenderTo w).2 = f ∧
    (∀ e, w.writeBytes f.Render = .error e → (f.RenderTo w).1 = .error e) ∧
    (∀ w2, w.writeBytes f.Render = .ok w2 →
      (f.RenderTo w).1 = .ok w2 ∧ w2.written = w.written ++ f.Render) := by
  refine ⟨rfl, fun e he => he, fun w2 hw => ⟨hw, ?_⟩⟩
  unfold ID3_Writer.writeBytes at hw
  by_cases hc : w.written.length + f.Render.length ≤ w.capacity
  · rw [if_pos hc] at hw
    injection hw with h
    rw [← h]
  · rw [if_neg hc] at hw
    cases hw

/-- Witness for C6: a zero-capacity writer fails on a binary field's bytes;
the failure is propagated and the field is returned unchanged. -/
theorem render_side_effect_free_witness :
    (sampleBin.RenderTo { capacity := 0, written := [] }).2 = sampleBin ∧
    (sampleBin.RenderTo { capacity := 0, written := [] }).1 =
      .error .IoError := by
  have h := render_side_effect_free sampleBin { capacity := 0, written := [] }
  exact ⟨h.1, h.2.1 .IoError rfl⟩

/-- C7: InScope is monotonic over a declared closed version range — if the
policy maps the field's identity to the closed range [V1, V2] and the field
is in scope at some version of that range, it is in scope at every version
of that range. -/
theorem inscope_monotonic (policy : List (Nat × ScopeRange))
    (f : ID3_Field) (V1 V2 V Vp : Nat)
    (hdecl : policy.lookup f.GetID = some { lo := V1, hi := some V2 })
    (_hV1 : V1 ≤ V) (_hV2 : V ≤ V2)
    (_hin : f.InScope policy V = true)
    (hp1 : V1 ≤ Vp) (hp2 : Vp ≤ V2) :
    f.InScope policy Vp = true := by
  simp [ID3_Field.InScope, inScopePolicy, hdecl]
  omega

/-- Witness for C7 at a concrete one-entry policy with range [3, 5]:
in scope at 4, hence in scope at 5. -/
theorem inscope_monotonic_witness :
    sampleAscii.InScope [(1, { lo := 3, hi := some 5 })] 5 = true := by
  exact inscope_monotonic [(1, { lo := 3, hi := some 5 })] sampleAscii
    3 5 4 5 (by decide) (by decide) (by decide) (by decide) (by decide)
    (by decide)

/-- C10: the wide-string operations agree with their narrow counterparts
modulo the narrow→wide character mapping — for any narrow string, Set and
Add through the narrow entry points produce exactly the state produced by
the wide entry points applied to the widened image. -/
theorem unicode_ascii_equiv (f : ID3_Field) (s : List Nat)
    (h : ∀ c ∈ s, c < 256) :
    f.SetAscii s = f.SetUnicode (narrowToWide s) ∧
    f.AddAscii s = f.AddUnicode (narrowToWide s) := by
  have hconv : (convertChars .UTF16 f.encoding (narrowToWide s)).1 =
      (convertChars .ISO8859_1 f.encoding s).1 := by
    cases f.encoding
    · simp [narrowToWide, convertChars, wideToNarrow_map_id s h]
    · simp [narrowToWide, convertChars]
  simp [ID3_Field.SetAscii, ID3_Field.SetUnicode, ID3_Field.AddAscii,
        ID3_Field.AddUnicode, hconv]

/-- Witness for C10 at a concrete field and the narrow string "Hi". -/
theorem unicode_ascii_equiv_witness :
    sampleAscii.SetAscii [72, 105] =
      sampleAscii.SetUnicode (narrowToWide [72, 105]) ∧
    sampleAscii.AddAscii [72, 105] =
      sampleAscii.AddUnicode (narrowToWide [72, 105]) :=
  unicode_ascii_equiv sampleAscii [72, 105] (by decide)

/-- Converting one string A→B and back B→A is the identity when its
characters are representable in both encodings. -/
theorem convertChars_roundtrip_id (A B : ID3_TextEnc) (s : List Nat)
    (hA : ∀ c ∈ s, c < encBound A) (hB : ∀ c ∈ s, c < encBound B) :
    (convertChars B A (convertChars A B s).1).1 = s := by
  cases A <;> cases B
  · rfl
  · simp only [convertChars]
    exact wideToNarrow_map_id s hA
  · simp only [convertChars]
    exact wideToNarrow_map_id s hB
  · rfl

/-- Converting a whole item list A→B and back B→A is the identity when
every character is representable in both encodings. -/
theorem convertItems_roundtrip_id (A B : ID3_TextEnc) (items : List (List Nat))
    (hA : ∀ it ∈ items, ∀ c ∈ it, c < encBound A)
    (hB : ∀ it ∈ items, ∀ c ∈ it, c < encBound B) :
    (convertItems B A (convertItems A B items).1).1 = items := by
  induction items with
  | nil => rfl
  | cons it items ih =>
      have h1 := convertChars_roundtrip_id A B it (hA it (by simp))
        (hB it (by simp))
      have h2 := ih (fun x hx => hA x (by simp [hx]))
        (fun x hx => hB x (by simp [hx]))
      simp only [convertItems, List.map_cons] at h2 ⊢
      rw [h1, h2]

/-- Narrow→wide conversion of an item list changes no item. -/
theorem convertItems_narrow_wide_fst (l : List (List Nat)) :
    (convertItems .ISO8859_1 .UTF16 l).1 = l := by
  simp [convertItems, convertChars]

/-- Narrow→wide conversion of an item list never reports loss. -/
theorem convertItems_narrow_wide_snd (l : List (List Nat)) :
    (convertItems .ISO8859_1 .UTF16 l).2 = false := by
  simp [convertItems, convertChars]

/-- C2: rendering a well-formed field and parsing the produced bytes back
with a fresh field of the same declared kind and encoding succeeds and
reproduces a field equal in kind, encoding, and content. -/
theorem serialization_roundtrip (f : ID3_Field) (hwf : f.wellformedB = true) :
    ((emptyField f.kind f.encoding).Parse f.Render).1 = true ∧
    ((emptyField f.kind f.encoding).Parse f.Render).2.kind = f.kind ∧
    ((emptyField f.kind f.encoding).Parse f.Render).2.encoding = f.encoding ∧
    contentEq ((emptyField f.kind f.encoding).Parse f.Render).2 f := by
  cases hk : f.kind with
  | Integer =>
      simp only [ID3_Field.wellformedB, hk, decide_eq_true_eq] at hwf
      have hlen : (encodeUint32 f.integer).length = 4 := rfl
      simp [ID3_Field.Parse, ID3_Field.Render, emptyField, contentEq, hk,
            hlen, decodeUint32_encodeUint32 f.integer hwf]
  | Binary =>
      simp [ID3_Field.Parse, ID3_Field.Render, emptyField, contentEq, hk]
  | AsciiText =>
      simp only [ID3_Field.wellformedB, hk, List.all_eq_true,
                 Bool.and_eq_true, decide_eq_true_eq] at hwf
      cases he : f.encoding with
      | ISO8859_1 =>
          rw [he] at hwf
          have hsplit : splitItemsNarrow [] (renderNarrow f.items) =
              some f.items :=
            splitItemsNarrow_render f.items (fun it hit c hc => by
              have hx := hwf it hit c hc; omega)
          simp [ID3_Field.Parse, ID3_Field.Render, emptyField, contentEq,
                splitItems, hk, he, hsplit]
      | UTF16 =>
          rw [he] at hwf
          have hsplit : splitItemsWide [] (renderWide f.items) =
              some f.items :=
            splitItemsWide_render f.items (fun it hit c hc => by
              have hx := hwf it hit c hc
              rw [show encBound .UTF16 = 65536 from rfl] at hx
              exact ⟨by omega, hx.2⟩)
          simp [ID3_Field.Parse, ID3_Field.Render, emptyField, contentEq,
                splitItems, hk, he, hsplit]
  | UnicodeText =>
      simp only [ID3_Field.wellformedB, hk, List.all_eq_true,
                 Bool.and_eq_true, decide_eq_true_eq] at hwf
      cases he : f.encoding with
      | ISO8859_1 =>
          rw [he] at hwf
          have hsplit : splitItemsNarrow [] (renderNarrow f.items) =
              some f.items :=
            splitItemsNarrow_render f.items (fun it hit c hc => by
              have hx := hwf it hit c hc; omega)
          simp [ID3_Field.Parse, ID3_Field.Render, emptyField, contentEq,
                splitItems, hk, he, hsplit]
      | UTF16 =>
          rw [he] at hwf
          have hsplit : splitItemsWide [] (renderWide f.items) =
              some f.items :=
            splitItemsWide_render f.items (fun it hit c hc => by
              have hx := hwf it hit c hc
              rw [show encBound .UTF16 = 65536 from rfl] at hx
              exact ⟨by omega, hx.2⟩)
          simp [ID3_Field.Parse, ID3_Field.Render, emptyField, contentEq,
                splitItems, hk, he, hsplit]

/-- Witness for C2 at a concrete wide text field: render then parse
reproduces kind, encoding, and items. -/
theorem serialization_roundtrip_witness :
    ((emptyField sampleUni.kind sampleUni.encoding).Parse
        sampleUni.Render).1 = true ∧
    ((emptyField sampleUni.kind sampleUni.encoding).Parse
        sampleUni.Render).2.kind = sampleUni.kind ∧
    ((emptyField sampleUni.kind sampleUni.encoding).Parse
        sampleUni.Render).2.encoding = sampleUni.encoding ∧
    contentEq ((emptyField sampleUni.kind sampleUni.encoding).Parse
        sampleUni.Render).2 sampleUni :=
  serialization_roundtrip sampleUni (by decide)

/-- C5: converting a text field's encoding A→B and back B→A is the identity
when every character is representable in B; when some character is not,
the round-tripped items differ and the lossy-conversion report is raised
exactly once — by the A→B call and not by the B→A call. -/
theorem encoding_roundtrip (f : ID3_Field) (A B : ID3_TextEnc)
    (hk : f.kind.isText = true) (henc : f.encoding = A)
    (hwf : ∀ it ∈ f.items, ∀ c ∈ it, c < encBound A) :
    ((∀ it ∈ f.items, ∀ c ∈ it, c < encBound B) →
      ((f.SetEncoding B).2.SetEncoding A).2.items = f.items ∧
      ((f.SetEncoding B).2.SetEncoding A).2.encoding = A) ∧
    ((∃ it ∈ f.items, ∃ c ∈ it, encBound B ≤ c) →
      ((f.SetEncoding B).2.SetEncoding A).2.items ≠ f.items ∧
      (f.SetEncoding B).1.2 = true ∧
      ((f.SetEncoding B).2.SetEncoding A).1.2 = false) := by
  subst henc
  constructor
  · intro hB
    constructor
    · simp only [ID3_Field.SetEncoding, hk, if_true]
      exact convertItems_roundtrip_id f.encoding B f.items hwf hB
    · simp [ID3_Field.SetEncoding, hk]
  · rintro ⟨it0, hit0, c0, hc0, hge⟩
    have hc0b := hwf it0 hit0 c0 hc0
    cases B with
    | UTF16 =>
        exfalso
        cases hE : f.encoding <;> rw [hE] at hc0b <;>
          simp [encBound] at hge hc0b <;> omega
    | ISO8859_1 =>
        simp only [show encBound .ISO8859_1 = 256 from rfl] at hge
        cases hE : f.encoding with
        | ISO8859_1 =>
            exfalso
            rw [hE] at hc0b
            simp [encBound] at hc0b
            omega
        | UTF16 =>
            refine ⟨?_, ?_, ?_⟩
            · simp only [ID3_Field.SetEncoding, hk, if_true, hE,
                         convertItems_narrow_wide_fst]
              intro heq
              simp only [convertItems] at heq
              have h1 := list_map_eq_self _ f.items heq it0 hit0
              simp only [convertChars] at h1
              have h2 := list_map_eq_self _ it0 h1 c0 hc0
              rw [if_neg (by omega)] at h2
              simp only [replacementChar] at h2
              omega
            · simp only [ID3_Field.SetEncoding, hk, if_true, hE, convertItems,
                         convertChars, List.any_eq_true, decide_eq_true_eq]
              exact ⟨it0, hit0, c0, hc0, hge⟩
            · simp only [ID3_Field.SetEncoding, hk, if_true, hE,
                         convertItems_narrow_wide_snd]

/-- Witness for C5 at a concrete wide field holding the character 300: the
wide→narrow→wide round trip differs and exactly the first conversion
reports loss. -/
theorem encoding_roundtrip_witness :
    ((sampleUni.SetEncoding .ISO8859_1).2.SetEncoding .UTF16).2.items ≠
      sampleUni.items ∧
    (sampleUni.SetEncoding .ISO8859_1).1.2 = true ∧
    ((sampleUni.SetEncoding .ISO8859_1).2.SetEncoding .UTF16).1.2 = false := by
  have h := encoding_roundtrip sampleUni .UTF16 .ISO8859_1 (by decide) rfl
    (by decide)
  exact h.2 ⟨[99, 300], by decide, 300, by decide, by decide⟩

end Id3
